import Mathlib

/-
Verification development for the SyncytiaCounter ImageJ plugin.

The annotation store (`SyncytiaRoi` in SyncytiaCounter_.py) wraps ImageJ
`PointRoi` containers.  A `PointRoi` is modelled as the ordered list of its
(point, counter-tag) pairs together with its current counter tag; `getCount c`
is the number of stored points whose tag is `c` (the spec's `raw_count`).

Python reference semantics matter in two places and are modelled explicitly:
  * `self.saved = [self.single_cells]` in `__init__` (line 56) stores a
    reference to the live group-0 container, while `update_saved` (193-194)
    stores clones.  `SavedState.aliasInit` denotes the former; since
    `clear_syncytium(0)` (82) rebinds `self.single_cells`, leaving the saved
    list pointing at the old, never-again-mutated object, the model freezes
    that object into a `.snap` at that moment.
  * `self.active_roi` always aliases either `self.single_cells` or an entry
    of `self.roi`; it is modelled as the index `ActiveRef`.

GUI state (overlay, marker size/shape/labels, widget bookkeeping) carries no
point data and is not modelled.
-/

abbrev Point := Int × Int

def ROI_LIMIT : Nat := 100

structure PointRoi where
  points : List (Point × Nat)
  counter : Nat
deriving DecidableEq

def PointRoi.new : PointRoi := ⟨[], 0⟩

def PointRoi.setCounter (r : PointRoi) (c : Nat) : PointRoi :=
  { r with counter := c }

def PointRoi.addPoint (r : PointRoi) (p : Point) : PointRoi :=
  { r with points := r.points ++ [(p, r.counter)] }

def PointRoi.getCount (r : PointRoi) (c : Nat) : Nat :=
  (r.points.filter (fun pc => pc.2 == c)).length

def PointRoi.getNCoordinates (r : PointRoi) : Nat :=
  r.points.length

/-- The dummy point added at (-10,-10) in `__init__` (54) and `append_roi` (135). -/
def sentinelPoint : Point := (-10, -10)

/-- A freshly constructed segment: `PointRoi()` followed by
`setCounter(ROI_LIMIT - 1)` and `addPoint(-10, -10)` (52-54, 133-135). -/
def freshSegment : PointRoi :=
  (PointRoi.new.setCounter (ROI_LIMIT - 1)).addPoint sentinelPoint

inductive ActiveRef
  | single
  | seg (i : Nat)
deriving DecidableEq

inductive SavedState
  | aliasInit
  | snap (l : List PointRoi)
deriving DecidableEq

structure SyncytiaRoi where
  single_cells : PointRoi
  roi : List PointRoi
  saved : SavedState
  active : ActiveRef
  syncytia_count : Nat
deriving DecidableEq

/-- `SyncytiaRoi.__init__` without markers (45-62). -/
def initStore : SyncytiaRoi :=
  { single_cells := freshSegment
    roi := []
    saved := .aliasInit
    active := .single
    syncytia_count := 1 }

/-- Dereference `self.active_roi`. -/
def SyncytiaRoi.activeRoi (s : SyncytiaRoi) : PointRoi :=
  match s.active with
  | .single => s.single_cells
  | .seg i => s.roi.getD i PointRoi.new

/-- Mutate the container `self.active_roi` points at. -/
def SyncytiaRoi.updateActive (s : SyncytiaRoi) (f : PointRoi → PointRoi) : SyncytiaRoi :=
  match s.active with
  | .single => { s with single_cells := f s.single_cells }
  | .seg i => { s with roi := s.roi.set i (f (s.roi.getD i PointRoi.new)) }

/-- In every reachable state `active_roi` refers to an existing container. -/
def SyncytiaRoi.activeValid (s : SyncytiaRoi) : Prop :=
  match s.active with
  | .single => True
  | .seg i => i < s.roi.length

/-- `set_syncytium` (64-75).  For `idx ≥ 1`, `q, r = divmod(idx - 1, ROI_LIMIT)`;
the while loop appends fresh segments until `len(roi) = q + 1`. -/
def SyncytiaRoi.set_syncytium (s : SyncytiaRoi) (idx : Nat) : SyncytiaRoi :=
  if idx = 0 then
    { s with active := .single, single_cells := s.single_cells.setCounter 0 }
  else
    let q := (idx - 1) / ROI_LIMIT
    let r := (idx - 1) % ROI_LIMIT
    let roi2 := s.roi ++ List.replicate (q + 1 - s.roi.length) freshSegment
    { s with
        roi := roi2.set q ((roi2.getD q PointRoi.new).setCounter r)
        active := .seg q
        syncytia_count := if s.syncytia_count ≤ idx then idx + 1 else s.syncytia_count }

/-- A user click adds a point to `self.active_roi` under its current counter. -/
def SyncytiaRoi.add_point (s : SyncytiaRoi) (p : Point) : SyncytiaRoi :=
  s.updateActive (fun r => r.addPoint p)

/-- `nuclei_count` (97-116).  Python subtraction may go below zero, hence `Int`. -/
def SyncytiaRoi.nuclei_count (s : SyncytiaRoi) (idx : Nat) : Int :=
  if idx = 0 then (s.single_cells.getCount 0 : Int)
  else
    let q := (idx - 1) / ROI_LIMIT
    let r := (idx - 1) % ROI_LIMIT
    if s.roi.length < q + 1 then 0
    else if r = ROI_LIMIT - 1 then ((s.roi.getD q PointRoi.new).getCount r : Int) - 1
    else ((s.roi.getD q PointRoi.new).getCount r : Int)

/-- The rebuild loop of `clear_syncytium` (86-91): a fresh `PointRoi` receives,
in order, every point of the source whose counter differs from `r`. -/
def rebuildExcluding (src : PointRoi) (r : Nat) : PointRoi :=
  src.points.foldl
    (fun acc pc => if pc.2 ≠ r then (acc.setCounter pc.2).addPoint pc.1 else acc)
    PointRoi.new

/-- `clear_syncytium` (77-95).  For `idx = 0` the group-0 container is rebound
to a bare `PointRoi()`; if the saved list still aliased it, the old object is
frozen.  For `idx ≥ 1` the rebuild reads `self.active_roi`, not `self.roi[q]`. -/
def SyncytiaRoi.clear_syncytium (s : SyncytiaRoi) (idx : Nat) : SyncytiaRoi :=
  if s.nuclei_count idx = 0 then s
  else if idx = 0 then
    { s with
        single_cells := PointRoi.new
        active := .single
        saved := match s.saved with
          | .aliasInit => .snap [s.single_cells]
          | .snap l => .snap l }
  else
    let q := (idx - 1) / ROI_LIMIT
    let r := (idx - 1) % ROI_LIMIT
    { s with roi := s.roi.set q (rebuildExcluding s.activeRoi r), active := .seg q }

/-- The list the saved snapshot currently denotes (dereferencing the alias). -/
def SyncytiaRoi.savedList (s : SyncytiaRoi) : List PointRoi :=
  match s.saved with
  | .aliasInit => [s.single_cells]
  | .snap l => l

/-- The per-container comparison of `is_saved` (122-129): equal coordinate
counts, pointwise equal points and counters, i.e. equal (point, tag) lists. -/
def roiEquals (a b : PointRoi) : Bool := a.points == b.points

/-- `is_saved` (118-130): current containers are `roi + [single_cells]`. -/
def SyncytiaRoi.is_saved (s : SyncytiaRoi) : Bool :=
  if s.roi.length + 1 ≠ s.savedList.length then false
  else ((s.roi ++ [s.single_cells]).zip s.savedList).all (fun ab => roiEquals ab.1 ab.2)

/-- `update_saved` (192-194): snapshot clones of `roi` then of `single_cells`. -/
def SyncytiaRoi.update_saved (s : SyncytiaRoi) : SyncytiaRoi :=
  { s with saved := .snap (s.roi ++ [s.single_cells]) }

/-- `is_empty` (168-171): raw coordinate counts, sentinels included. -/
def SyncytiaRoi.is_empty (s : SyncytiaRoi) : Bool :=
  (s.roi.all fun r => r.getNCoordinates == 0) && (s.single_cells.getNCoordinates == 0)

structure Marker where
  idx : Nat
  position : Point
deriving DecidableEq

/-- `to_json` (196-211): each comprehension drops its first element (`[1:]`);
single-cell entries all get `idx = 0`, segment entries get
`ROI_LIMIT * roi_idx + counter + 1`. -/
def SyncytiaRoi.to_json (s : SyncytiaRoi) : List Marker :=
  (s.single_cells.points.map (fun pc => ({ idx := 0, position := pc.1 } : Marker))).tail
    ++ (s.roi.enum.map (fun qr =>
          (qr.2.points.map (fun pc =>
            ({ idx := ROI_LIMIT * qr.1 + pc.2 + 1, position := pc.1 } : Marker))).tail)).flatten

/-- One iteration of the `add_markers` loop (178-189), threading the local
`syncytia_count` accumulator. -/
def SyncytiaRoi.addMarkerStep (s : SyncytiaRoi) (cnt : Nat) (m : Marker) :
    SyncytiaRoi × Nat :=
  if m.idx = 0 then
    ({ s with single_cells := (s.single_cells.setCounter 0).addPoint m.position }, cnt)
  else
    let q := (m.idx - 1) / ROI_LIMIT
    let r := (m.idx - 1) % ROI_LIMIT
    let roi2 := s.roi ++ List.replicate (q + 1 - s.roi.length) freshSegment
    ({ s with roi := roi2.set q (((roi2.getD q PointRoi.new).setCounter r).addPoint m.position) },
     if cnt ≤ m.idx then m.idx + 1 else cnt)

/-- `add_markers` (173-190): the local counter starts at 1 and is assigned to
`self.syncytia_count` after the loop. -/
def SyncytiaRoi.add_markers (s : SyncytiaRoi) (ms : List Marker) : SyncytiaRoi :=
  let res := ms.foldl (fun sc m => SyncytiaRoi.addMarkerStep sc.1 sc.2 m) (s, 1)
  { res.1 with syncytia_count := res.2 }

/-- `SyncytiaRoi.__init__` with markers (61-62): replay onto a fresh store. -/
def initWithMarkers (ms : List Marker) : SyncytiaRoi :=
  initStore.add_markers ms

def markersTag : String := "markers"

/-- The outcome of reading and parsing the chosen file in `load_markers`
(540-557): an I/O failure, a JSON parse failure (`ValueError`), or a parsed
document with an optional top-level `format` field and its `data` list. -/
inductive LoadInput
  | ioError
  | parseError
  | doc (format : Option String) (data : List Marker)

/-- The store built on a successful load (548-553): fresh store from the
decoded markers, then `update_saved`. -/
def decodeStore (ms : List Marker) : SyncytiaRoi :=
  (initWithMarkers ms).update_saved

/-- `load_markers` (532-562) restricted to `self.syncytia`: the store is
replaced only when the document parses and its `format` field equals
"markers"; `IOError` and `ValueError` are caught and leave it untouched. -/
def load_markers (s : SyncytiaRoi) (inp : LoadInput) : SyncytiaRoi :=
  match inp with
  | .ioError => s
  | .parseError => s
  | .doc fmt data => if fmt = some markersTag then decodeStore data else s

/-- The public mutation operations of the store. -/
inductive MutOp
  | setGroup (g : Nat)
  | addPt (p : Point)
deriving DecidableEq

def applyOp (s : SyncytiaRoi) : MutOp → SyncytiaRoi
  | .setGroup g => s.set_syncytium g
  | .addPt p => s.add_point p

def applyOps (s : SyncytiaRoi) (l : List MutOp) : SyncytiaRoi :=
  l.foldl applyOp s

/-- Operations that only ever touch the group-0 container. -/
def onlyGroup0 : MutOp → Bool
  | .setGroup g => g == 0
  | .addPt _ => true

/-
SyncytiaSummary_.py.  Jython dicts are modelled as insertion-ordered
association lists with unique keys; `dictGet`/`dictSet` read and write the
first (hence only) binding of a key.
-/

def dictGet : List (Nat × Nat) → Nat → Nat
  | [], _ => 0
  | (a, b) :: rest, k => if a = k then b else dictGet rest k

def dictSet : List (Nat × Nat) → Nat → Nat → List (Nat × Nat)
  | [], k, v => [(k, v)]
  | (a, b) :: rest, k, v => if a = k then (a, v) :: rest else (a, b) :: dictSet rest k v

/-- `d[k] = d.setdefault(k, 0) + 1`. -/
def dictIncr (d : List (Nat × Nat)) (k : Nat) : List (Nat × Nat) :=
  dictSet d k (dictGet d k + 1)

/-- The effect of `syncytia.pop(0, 0)` on the remaining dict. -/
def dictPop0 (d : List (Nat × Nat)) : List (Nat × Nat) :=
  d.filter (fun kv => kv.1 != 0)

/-- One parsed `*_markers.json` file as `SyncytiaSummary.summarize` sees it. -/
structure MarkerFile where
  format : String
  data : List Marker
deriving DecidableEq

/-- The per-file loop `syncytia[nuc_idx] = syncytia.setdefault(nuc_idx, 0) + 1`
(50-52). -/
def collectSyncytia (data : List Marker) : List (Nat × Nat) :=
  data.foldl (fun d m => dictIncr d m.idx) []

/-- One iteration of the file loop in `summarize` (43-56): skip on wrong
format, add single cells into bucket 1, bump one bucket per syncytium. -/
def processFile (hist : List (Nat × Nat)) (f : MarkerFile) : List (Nat × Nat) :=
  if f.format ≠ markersTag then hist
  else
    let syn := collectSyncytia f.data
    let hist1 := dictSet hist 1 (dictGet hist 1 + dictGet syn 0)
    (dictPop0 syn).foldl (fun h kv => dictIncr h kv.2) hist1

/-- The histogram after the file loop; it starts as `{1: 0}` (42). -/
def summaryHist (files : List MarkerFile) : List (Nat × Nat) :=
  files.foldl processFile [(1, 0)]

/-- `max_size = max(hist.keys())` (57); the key 1 is always present. -/
def maxSize (hist : List (Nat × Nat)) : Nat :=
  hist.foldl (fun m kv => max m kv.1) 0

/-- `counts = [hist.setdefault(i+1, 0) for i in range(max_size)]` (59). -/
def countsList (files : List MarkerFile) : List Nat :=
  (List.range (maxSize (summaryHist files))).map
    (fun i => dictGet (summaryHist files) (i + 1))

/-- The fusion index row (72-73): `sum([(i)*n for i, n in enumerate(counts)])`. -/
def fusionIndexTotal (files : List MarkerFile) : Nat :=
  ((countsList files).enum.map (fun ic => ic.1 * ic.2)).sum

/-- The group sizes a file contributes (nonzero `idx` buckets of its dict). -/
def fileGroupSizes (f : MarkerFile) : List Nat :=
  (dictPop0 (collectSyncytia f.data)).map (fun kv => kv.2)

/-- Modelled from the spec: "a fusion index equal to the sum of
(group_size - 1) over all multi-member groups", across the files that pass
format validation. -/
def specFusionIndex (files : List MarkerFile) : Nat :=
  (files.filter (fun f => f.format == markersTag)).foldl
    (fun acc f =>
      acc + (((fileGroupSizes f).filter (fun v => 2 ≤ v)).map (fun v => v - 1)).sum)
    0

/-- Modelled from the spec: the `clear_tag` contract of section 4.1 — rebuild
the point list excluding tag `r`, re-adding the sentinel if it was removed
(it is removed exactly when `r` is the sentinel tag). -/
def clear_tag_spec (seg : PointRoi) (r : Nat) : List (Point × Nat) :=
  let kept := seg.points.filter (fun pc => pc.2 != r)
  if r = ROI_LIMIT - 1 then kept ++ [(sentinelPoint, ROI_LIMIT - 1)] else kept

/-- The sentinel sits, as placed by `__init__`/`append_roi`, at the head of a
container's point list, tagged `ROI_LIMIT - 1`. -/
def sentinelFirst (r : PointRoi) : Prop :=
  r.points.head? = some (sentinelPoint, ROI_LIMIT - 1)

/-- Invariant carried through clear-free mutation sequences: every container
(group 0 included) still has its sentinel in first position, and the active
reference is in range. -/
def sentinelInv (s : SyncytiaRoi) : Prop :=
  sentinelFirst s.single_cells ∧ (∀ seg ∈ s.roi, sentinelFirst seg) ∧ s.activeValid

/-- The operation sequence on which encode/decode loses a point: a point is
added to group 0, group 0 is cleared, and two more points are added. -/
def failSeqStore : SyncytiaRoi :=
  ((((initStore.set_syncytium 0).add_point (1, 1)).clear_syncytium 0).add_point
      (2, 2)).add_point (3, 3)

/-- A store whose active segment (index 1) differs from the segment owning
group 1 (index 0), with different non-tag-0 contents in the two segments. -/
def misalignedStore : SyncytiaRoi :=
  applyOps initStore
    [.setGroup 1, .addPt (1, 1), .setGroup 2, .addPt (3, 3), .setGroup 101, .addPt (2, 2)]

/-- A store whose active segment is the one owning group 1, with one point. -/
def alignedStore : SyncytiaRoi :=
  applyOps initStore [.setGroup 1, .addPt (1, 1)]

/-- Concrete summary input: three single cells and one syncytium of size 4. -/
def sumFileA : MarkerFile :=
  ⟨markersTag, [⟨0, (0, 0)⟩, ⟨0, (1, 1)⟩, ⟨0, (2, 2)⟩,
                ⟨1, (3, 3)⟩, ⟨1, (4, 4)⟩, ⟨1, (5, 5)⟩, ⟨1, (6, 6)⟩]⟩

/-- Concrete summary input: one syncytium of size 4. -/
def sumFileB : MarkerFile :=
  ⟨markersTag, [⟨1, (0, 0)⟩, ⟨1, (1, 1)⟩, ⟨1, (2, 2)⟩, ⟨1, (3, 3)⟩]⟩

/-- The histogram mass weighted by (bucket - 1): each group of size n in a
bucket contributes n - 1, the fusion-index weight. -/
def sumW (d : List (Nat × Nat)) : Nat :=
  (d.map (fun kv => (kv.1 - 1) * kv.2)).sum

/-- The key list of a dict. -/
def keysOf (d : List (Nat × Nat)) : List Nat :=
  d.map Prod.fst

/-
Generic list helpers.
-/

theorem getD_set_self {α : Type} (l : List α) (i : Nat) (a d : α) (h : i < l.length) :
    (l.set i a).getD i d = a := by
  induction l generalizing i with
  | nil => simp at h
  | cons x xs ih =>
    cases i with
    | zero => rfl
    | succ n => exact ih n (by simpa using h)

theorem getD_mem {α : Type} (l : List α) (i : Nat) (d : α) (h : i < l.length) :
    l.getD i d ∈ l := by
  induction l generalizing i with
  | nil => simp at h
  | cons x xs ih =>
    cases i with
    | zero => exact List.mem_cons_self _ _
    | succ n => exact List.mem_cons_of_mem _ (ih n (by simpa using h))

theorem getD_replicate {α : Type} (n i : Nat) (a d : α) (h : i < n) :
    (List.replicate n a).getD i d = a := by
  induction n generalizing i with
  | zero => omega
  | succ m ih =>
    cases i with
    | zero => rfl
    | succ j => exact ih j (by omega)

theorem head?_append_some {α : Type} {l : List α} (l2 : List α) {a : α}
    (h : l.head? = some a) : (l ++ l2).head? = some a := by
  cases l with
  | nil => simp at h
  | cons x xs => simpa using h

/-
PointRoi helpers.
-/

theorem points_setCounter (r : PointRoi) (c : Nat) : (r.setCounter c).points = r.points := rfl

theorem counter_setCounter (r : PointRoi) (c : Nat) : (r.setCounter c).counter = c := rfl

theorem counter_addPoint (r : PointRoi) (p : Point) : (r.addPoint p).counter = r.counter := rfl

theorem getCount_setCounter (r : PointRoi) (k c : Nat) :
    (r.setCounter k).getCount c = r.getCount c := rfl

theorem getCount_addPoint (r : PointRoi) (p : Point) (c : Nat) :
    (r.addPoint p).getCount c = r.getCount c + (if r.counter = c then 1 else 0) := by
  simp only [PointRoi.getCount, PointRoi.addPoint, List.filter_append, List.length_append]
  congr 1
  by_cases h : r.counter = c <;> simp [h]

theorem getCount_fresh (c : Nat) :
    freshSegment.getCount c = if ROI_LIMIT - 1 = c then 1 else 0 := by
  by_cases h : ROI_LIMIT - 1 = c <;>
    simp [freshSegment, PointRoi.getCount, PointRoi.addPoint, PointRoi.setCounter,
      PointRoi.new, h]

/-
Sentinel invariant machinery (claim C2).
-/

theorem sentinelFirst_fresh : sentinelFirst freshSegment := rfl

theorem sentinelFirst_setCounter (r : PointRoi) (c : Nat) (h : sentinelFirst r) :
    sentinelFirst (r.setCounter c) := h

theorem sentinelFirst_addPoint (r : PointRoi) (p : Point) (h : sentinelFirst r) :
    sentinelFirst (r.addPoint p) := by
  unfold sentinelFirst PointRoi.addPoint at *
  exact head?_append_some _ h

theorem sentinelInv_applyOp (s : SyncytiaRoi) (op : MutOp) (h : sentinelInv s) :
    sentinelInv (applyOp s op) := by
  obtain ⟨hsc, hroi, hact⟩ := h
  cases op with
  | setGroup g =>
    by_cases hg : g = 0
    · subst hg
      exact ⟨sentinelFirst_setCounter _ _ hsc, hroi, trivial⟩
    · show sentinelInv (s.set_syncytium g)
      unfold SyncytiaRoi.set_syncytium
      rw [if_neg hg]
      set q := (g - 1) / ROI_LIMIT with hq
      set roi2 := s.roi ++ List.replicate (q + 1 - s.roi.length) freshSegment with hroi2
      have hlen2 : q + 1 ≤ roi2.length := by
        rw [hroi2]; simp [List.length_append, List.length_replicate]; omega
      have hmem2 : ∀ seg ∈ roi2, sentinelFirst seg := by
        intro seg hseg
        rw [hroi2] at hseg
        rcases List.mem_append.mp hseg with hold | hrep
        · exact hroi seg hold
        · rw [(List.mem_replicate.mp hrep).2]; exact sentinelFirst_fresh
      refine ⟨hsc, ?_, ?_⟩
      · intro seg hseg
        rcases List.mem_or_eq_of_mem_set hseg with hin | heq
        · exact hmem2 seg hin
        · rw [heq]
          exact sentinelFirst_setCounter _ _ (hmem2 _ (getD_mem _ _ _ (by omega)))
      · show q < (roi2.set q _).length
        rw [List.length_set]; omega
  | addPt p =>
    show sentinelInv (s.add_point p)
    unfold SyncytiaRoi.add_point SyncytiaRoi.updateActive
    unfold SyncytiaRoi.activeValid at hact
    cases ha : s.active with
    | single =>
      exact ⟨sentinelFirst_addPoint _ _ hsc, hroi, by simp [SyncytiaRoi.activeValid, ha]⟩
    | seg i =>
      rw [ha] at hact
      refine ⟨hsc, ?_, ?_⟩
      · intro seg hseg
        rcases List.mem_or_eq_of_mem_set hseg with hin | heq
        · exact hroi seg hin
        · rw [heq]
          exact sentinelFirst_addPoint _ _ (hroi _ (getD_mem _ _ _ hact))
      · show i < (s.roi.set i _).length
        rw [List.length_set]; exact hact

theorem sentinelInv_applyOps (s : SyncytiaRoi) (l : List MutOp) (h : sentinelInv s) :
    sentinelInv (applyOps s l) := by
  induction l generalizing s with
  | nil => exact h
  | cons op t ih => exact ih _ (sentinelInv_applyOp s op h)

theorem sentinelInv_initStore : sentinelInv initStore :=
  ⟨rfl, by intro seg hseg; simp [initStore] at hseg, trivial⟩

/-
is_saved machinery (claims C6, C9).
-/

theorem zip_all_roiEquals (as bs : List PointRoi) (h : as.length = bs.length) :
    ((as.zip bs).all (fun ab => roiEquals ab.1 ab.2) = true)
      ↔ as.map PointRoi.points = bs.map PointRoi.points := by
  induction as generalizing bs with
  | nil =>
    cases bs with
    | nil => simp
    | cons b t => simp at h
  | cons a ta ih =>
    cases bs with
    | nil => simp at h
    | cons b tb =>
      simp only [List.zip_cons_cons, List.all_cons, Bool.and_eq_true, List.map_cons,
        List.cons.injEq, roiEquals, beq_iff_eq]
      exact and_congr_right fun _ => ih tb (by simpa using h)

theorem is_saved_iff (t : SyncytiaRoi) :
    t.is_saved = true
      ↔ (t.roi ++ [t.single_cells]).map PointRoi.points = t.savedList.map PointRoi.points := by
  unfold SyncytiaRoi.is_saved
  by_cases hlen : t.roi.length + 1 = t.savedList.length
  · rw [if_neg (not_not_intro hlen)]
    exact zip_all_roiEquals _ _ (by simpa using hlen)
  · rw [if_pos hlen]
    constructor
    · intro hf; cases hf
    · intro hm
      exfalso
      apply hlen
      have := congrArg List.length hm
      simpa using this

theorem is_saved_update_saved (s : SyncytiaRoi) : s.update_saved.is_saved = true := by
  rw [is_saved_iff]
  rfl

theorem add_point_saved (s : SyncytiaRoi) (p : Point) : (s.add_point p).saved = s.saved := by
  unfold SyncytiaRoi.add_point SyncytiaRoi.updateActive
  cases s.active <;> rfl

theorem map_points_ne_set_addPoint (l : List PointRoi) (i : Nat) (hi : i < l.length)
    (p : Point) :
    (l.set i ((l.getD i PointRoi.new).addPoint p)).map PointRoi.points
      ≠ l.map PointRoi.points := by
  induction l generalizing i with
  | nil => simp at hi
  | cons a t ih =>
    cases i with
    | zero =>
      simp only [List.set, List.getD, List.map_cons, ne_eq, List.cons.injEq, not_and]
      intro h1
      exfalso
      have := congrArg List.length h1
      simp [PointRoi.addPoint] at this
    | succ j =>
      simp only [List.set, List.map_cons, ne_eq, List.cons.injEq, not_and]
      intro _
      exact ih j (by simpa using hi)

/-
Effect of add_point on a segment-active store (claims C3, C6).
-/

theorem add_point_seg (s : SyncytiaRoi) (p : Point) (q : Nat)
    (ha : s.active = ActiveRef.seg q) :
    (s.add_point p).active = ActiveRef.seg q ∧
    (s.add_point p).roi = s.roi.set q ((s.roi.getD q PointRoi.new).addPoint p) ∧
    (s.add_point p).single_cells = s.single_cells := by
  unfold SyncytiaRoi.add_point SyncytiaRoi.updateActive
  rw [ha]
  exact ⟨rfl, rfl, rfl⟩

theorem addPoint_fold_seg (ps : List Point) (s : SyncytiaRoi) (q : Nat)
    (ha : s.active = ActiveRef.seg q) (hlen : q < s.roi.length) :
    (ps.foldl SyncytiaRoi.add_point s).roi.length = s.roi.length ∧
    ((ps.foldl SyncytiaRoi.add_point s).roi.getD q PointRoi.new).counter
      = (s.roi.getD q PointRoi.new).counter ∧
    ∀ c, ((ps.foldl SyncytiaRoi.add_point s).roi.getD q PointRoi.new).getCount c
      = (s.roi.getD q PointRoi.new).getCount c
        + (if (s.roi.getD q PointRoi.new).counter = c then ps.length else 0) := by
  induction ps generalizing s with
  | nil => simp
  | cons p t ih =>
    obtain ⟨ha1, hroi1, _⟩ := add_point_seg s p q ha
    have hlen1 : q < (s.add_point p).roi.length := by
      rw [hroi1, List.length_set]; exact hlen
    have hget1 : (s.add_point p).roi.getD q PointRoi.new
        = (s.roi.getD q PointRoi.new).addPoint p := by
      rw [hroi1]; exact getD_set_self _ _ _ _ hlen
    obtain ⟨ihlen, ihcnt, ihcount⟩ := ih (s.add_point p) ha1 hlen1
    refine ⟨?_, ?_, ?_⟩
    · rw [List.foldl_cons, ihlen, hroi1, List.length_set]
    · rw [List.foldl_cons, ihcnt, hget1, counter_addPoint]
    · intro c
      rw [List.foldl_cons, ihcount c, hget1, getCount_addPoint, counter_addPoint]
      by_cases hc : (s.roi.getD q PointRoi.new).counter = c
      · rw [if_pos hc, if_pos hc, if_pos hc, List.length_cons]
        omega
      · rw [if_neg hc, if_neg hc, if_neg hc]

/-- C1: the round-trip claim is the spec's intent, but the code drops a real
point: `clear_syncytium(0)` rebuilds the group-0 container without the dummy
sentinel (line 82), while `to_json` still discards the first stored point of
every container (204).  After set_active_group(0), add (1,1), clear_group(0),
add (2,2), add (3,3), the original store reports nuclei_count(0) = 2 but the
decode of its encoding reports 1. -/
theorem c1_roundtrip_failure :
    failSeqStore.nuclei_count 0 = 2 ∧
    (initWithMarkers failSeqStore.to_json).nuclei_count 0 = 1 := by decide

/-- C2 counterexample: contrary to "the group-0 Segment contains no sentinel",
the freshly constructed store's group-0 container holds exactly one sentinel
point (the dummy added at lines 52-54). -/
theorem c2_counterexample :
    (initStore.single_cells.points.filter
      (fun pc => pc == (sentinelPoint, ROI_LIMIT - 1))).length = 1 := by decide

/-- C2 (amended): in every store state reachable from a fresh store by
set_active_group / add_point calls alone, every Segment — including the
group-0 Segment — carries the sentinel point as its first stored entry, at
local tag CAPACITY − 1; and clear_group does not re-add a removed sentinel:
clearing group 0 leaves the group-0 container with no points at all. -/
theorem c2_sentinel_amended (l : List MutOp) :
    (sentinelFirst (applyOps initStore l).single_cells ∧
      ∀ seg ∈ (applyOps initStore l).roi, sentinelFirst seg) ∧
    (((initStore.set_syncytium 0).add_point (1, 1)).clear_syncytium 0).single_cells.points
      = [] := by
  have h := sentinelInv_applyOps initStore l sentinelInv_initStore
  exact ⟨⟨h.1, h.2.1⟩, by decide⟩

/-- C2 witness: the invariant at a concrete clear-free sequence. -/
theorem c2_sentinel_amended_witness :
    sentinelFirst (applyOps initStore [MutOp.setGroup 1, MutOp.addPt (5, 5)]).single_cells :=
  (c2_sentinel_amended [MutOp.setGroup 1, MutOp.addPt (5, 5)]).1.1

/-- C4 counterexample: `set_active_group(CAPACITY)` on an empty store creates
one Segment (not 2) and resolves to local tag CAPACITY − 1 of Segment 0 (not
tag 0 of Segment 1), since divmod(CAPACITY − 1, CAPACITY) = (0, CAPACITY − 1). -/
theorem c4_counterexample :
    (initStore.set_syncytium ROI_LIMIT).roi.length = 1 ∧
    (initStore.set_syncytium ROI_LIMIT).active = ActiveRef.seg 0 ∧
    ((initStore.set_syncytium ROI_LIMIT).roi.getD 0 PointRoi.new).counter
      = ROI_LIMIT - 1 := by decide

/-- C4 (amended): for g ≥ 1, set_active_group(g) resolves g to
(segment_index, local_tag) = divmod(g − 1, CAPACITY), creating Segments on
demand (the list grows to max(old length, segment_index + 1)); in particular
set_active_group(CAPACITY) on an empty store creates exactly 1 Segment and
resolves to local tag CAPACITY − 1 of Segment 0. -/
theorem c4_sharding (s : SyncytiaRoi) (g : Nat) (hg : 1 ≤ g) :
    (s.set_syncytium g).roi.length = max s.roi.length ((g - 1) / ROI_LIMIT + 1) ∧
    (s.set_syncytium g).active = ActiveRef.seg ((g - 1) / ROI_LIMIT) ∧
    ((s.set_syncytium g).roi.getD ((g - 1) / ROI_LIMIT) PointRoi.new).counter
      = (g - 1) % ROI_LIMIT ∧
    (initStore.set_syncytium ROI_LIMIT).roi.length = 1 ∧
    ((initStore.set_syncytium ROI_LIMIT).roi.getD 0 PointRoi.new).counter
      = ROI_LIMIT - 1 := by
  have hg0 : g ≠ 0 := by omega
  refine ⟨?_, ?_, ?_, by decide, by decide⟩
  · simp only [SyncytiaRoi.set_syncytium, hg0, if_false, List.length_set,
      List.length_append, List.length_replicate]
    omega
  · simp only [SyncytiaRoi.set_syncytium, hg0, if_false]
  · simp only [SyncytiaRoi.set_syncytium, hg0, if_false]
    rw [getD_set_self _ _ _ _ (by simp only [List.length_append, List.length_replicate]; omega)]
    rfl

/-- C4 witness: activating group 1 on a fresh store resolves to Segment 0. -/
theorem c4_sharding_witness :
    (initStore.set_syncytium 1).active = ActiveRef.seg 0 :=
  (c4_sharding initStore 1 (by decide)).2.1

/-- C5 counterexample: a freshly created store is not `is_empty` (the group-0
container holds the dummy sentinel and `is_empty` counts raw coordinates),
although every group's corrected count is 0 and group_count is 1. -/
theorem c5_counterexample :
    initStore.is_empty = false ∧ initStore.nuclei_count 0 = 0 ∧
    initStore.syncytia_count = 1 := by decide

/-- C5 (amended): is_empty is true iff every Segment, the group-0 Segment
included, stores zero raw points — sentinels counted, not corrected counts;
consequently a freshly created store is not empty. -/
theorem c5_is_empty_raw (s : SyncytiaRoi) :
    (s.is_empty = true ↔ (∀ r ∈ s.roi, r.points = []) ∧ s.single_cells.points = []) ∧
    initStore.is_empty = false := by
  refine ⟨?_, by decide⟩
  unfold SyncytiaRoi.is_empty PointRoi.getNCoordinates
  simp [List.all_eq_true, List.length_eq_zero]

/-- C5 witness: the characterization evaluated at the fresh store. -/
theorem c5_is_empty_raw_witness : initStore.is_empty = false :=
  (c5_is_empty_raw initStore).2

/-- C7: decode is rejected exactly when the top-level format field is missing
or differs from "markers", and a rejected document, an I/O failure, or a JSON
parse failure leaves the previously-loaded store untouched; a document with
the right tag replaces it with the decoded store. -/
theorem c7_decode_guard (s : SyncytiaRoi) (fmt : Option String) (data : List Marker)
    (hfmt : fmt ≠ some markersTag) :
    load_markers s (LoadInput.doc fmt data) = s ∧
    load_markers s LoadInput.ioError = s ∧
    load_markers s LoadInput.parseError = s ∧
    load_markers s (LoadInput.doc (some markersTag) data) = decodeStore data := by
  refine ⟨?_, rfl, rfl, ?_⟩
  · simp [load_markers, hfmt]
  · simp [load_markers]

/-- C7 witness: a document with a missing format field is rejected. -/
theorem c7_decode_guard_witness :
    load_markers initStore (LoadInput.doc none []) = initStore :=
  (c7_decode_guard initStore none [] (by simp)).1

/-
Group-0-only sequences (claim C9).
-/

theorem group0_state (l : List MutOp) (h : ∀ op ∈ l, onlyGroup0 op = true)
    (s : SyncytiaRoi) (h1 : s.roi = []) (h2 : s.active = ActiveRef.single)
    (h3 : s.saved = SavedState.aliasInit) :
    (applyOps s l).roi = [] ∧ (applyOps s l).active = ActiveRef.single ∧
      (applyOps s l).saved = SavedState.aliasInit := by
  induction l generalizing s with
  | nil => exact ⟨h1, h2, h3⟩
  | cons op t ih =>
    have hop := h op (List.mem_cons_self _ _)
    have hrest : ∀ o ∈ t, onlyGroup0 o = true := fun o ho => h o (List.mem_cons_of_mem _ ho)
    cases op with
    | setGroup g =>
      have hg : g = 0 := by simpa [onlyGroup0] using hop
      subst hg
      have e : (s.set_syncytium 0).roi = s.roi ∧
          (s.set_syncytium 0).active = ActiveRef.single ∧
          (s.set_syncytium 0).saved = s.saved := ⟨rfl, rfl, rfl⟩
      exact ih hrest _ (e.1.trans h1) e.2.1 (e.2.2.trans h3)
    | addPt p =>
      have e : (s.add_point p).roi = s.roi ∧ (s.add_point p).active = s.active ∧
          (s.add_point p).saved = s.saved := by
        unfold SyncytiaRoi.add_point SyncytiaRoi.updateActive
        rw [h2]
        exact ⟨rfl, rfl, rfl⟩
      exact ih hrest _ (e.1.trans h1) (e.2.1.trans h2) (e.2.2.trans h3)

/-- C9: on a fresh store the saved list aliases the live group-0 container
(`self.saved = [self.single_cells]`, line 56), so after any sequence of
operations routed only to group 0 (activating group 0 and adding points),
is_saved still returns true and the snapshot is still the initial alias. -/
theorem c9_alias_group0 (l : List MutOp) (h : ∀ op ∈ l, onlyGroup0 op = true) :
    (applyOps initStore l).is_saved = true ∧
    (applyOps initStore l).saved = SavedState.aliasInit := by
  obtain ⟨h1, h2, h3⟩ := group0_state l h initStore rfl rfl rfl
  refine ⟨?_, h3⟩
  unfold SyncytiaRoi.is_saved SyncytiaRoi.savedList
  rw [h3, h1]
  simp [roiEquals]

/-- C9 witness: two points added to group 0 leave is_saved true. -/
theorem c9_alias_group0_witness :
    (applyOps initStore
      [MutOp.setGroup 0, MutOp.addPt (1, 1), MutOp.addPt (2, 2)]).is_saved = true :=
  (c9_alias_group0 [MutOp.setGroup 0, MutOp.addPt (1, 1), MutOp.addPt (2, 2)]
    (by decide)).1

theorem add_point_single (s : SyncytiaRoi) (p : Point)
    (ha : s.active = ActiveRef.single) :
    (s.add_point p).roi = s.roi ∧
    (s.add_point p).single_cells = s.single_cells.addPoint p := by
  unfold SyncytiaRoi.add_point SyncytiaRoi.updateActive
  rw [ha]
  exact ⟨rfl, rfl⟩

/-- C3: nuclei_count implements the corrected count — raw count minus one
exactly at local tag CAPACITY − 1 of an existing segment, the raw tag-0 count
for group 0 — and on a fresh store, activating a group g with local tag
t ≠ CAPACITY − 1 and adding k points yields corrected count k for g and 0 for
the group owning tag CAPACITY − 1 of the same segment. -/
theorem c3_count_correction (s : SyncytiaRoi) (g : Nat) (hg : 1 ≤ g)
    (hseg : (g - 1) / ROI_LIMIT < s.roi.length) (ps : List Point) :
    s.nuclei_count g
        = ((s.roi.getD ((g - 1) / ROI_LIMIT) PointRoi.new).getCount
            ((g - 1) % ROI_LIMIT) : Int)
          - (if (g - 1) % ROI_LIMIT = ROI_LIMIT - 1 then 1 else 0) ∧
    s.nuclei_count 0 = (s.single_cells.getCount 0 : Int) ∧
    ((g - 1) % ROI_LIMIT ≠ ROI_LIMIT - 1 →
      (ps.foldl SyncytiaRoi.add_point (initStore.set_syncytium g)).nuclei_count g
          = (ps.length : Int) ∧
      (ps.foldl SyncytiaRoi.add_point (initStore.set_syncytium g)).nuclei_count
          (ROI_LIMIT * ((g - 1) / ROI_LIMIT) + ROI_LIMIT) = 0) := by
  have hg0 : g ≠ 0 := by omega
  refine ⟨?_, rfl, ?_⟩
  · simp only [SyncytiaRoi.nuclei_count, hg0, if_false]
    rw [if_neg (by omega)]
    by_cases h99 : (g - 1) % ROI_LIMIT = ROI_LIMIT - 1
    · rw [if_pos h99, if_pos h99]
    · rw [if_neg h99, if_neg h99]
      simp
  · intro hr
    have e2 : (initStore.set_syncytium g).active
        = ActiveRef.seg ((g - 1) / ROI_LIMIT) := by
      simp only [SyncytiaRoi.set_syncytium, hg0, if_false]
    have e1 : (initStore.set_syncytium g).roi.length = (g - 1) / ROI_LIMIT + 1 := by
      simp only [SyncytiaRoi.set_syncytium, hg0, if_false, List.length_set,
        List.length_append, List.length_replicate, initStore, List.length_nil,
        ROI_LIMIT]
      omega
    have e3 : (initStore.set_syncytium g).roi.getD ((g - 1) / ROI_LIMIT) PointRoi.new
        = freshSegment.setCounter ((g - 1) % ROI_LIMIT) := by
      simp only [SyncytiaRoi.set_syncytium, hg0, if_false]
      rw [getD_set_self _ _ _ _
        (by simp only [List.length_append, List.length_replicate, initStore,
              List.length_nil, ROI_LIMIT]; omega)]
      congr 1
      show (([] : List PointRoi)
          ++ List.replicate ((g - 1) / ROI_LIMIT + 1 - 0) freshSegment).getD
            ((g - 1) / ROI_LIMIT) PointRoi.new = freshSegment
      rw [List.nil_append]
      exact getD_replicate _ _ _ _ (by simp only [ROI_LIMIT]; omega)
    obtain ⟨flen, fcnt, fcount⟩ := addPoint_fold_seg ps (initStore.set_syncytium g)
      ((g - 1) / ROI_LIMIT) e2 (by rw [e1]; exact Nat.lt_succ_self _)
    constructor
    · simp only [SyncytiaRoi.nuclei_count, hg0, if_false]
      rw [if_neg (by rw [flen, e1]; exact lt_irrefl _), if_neg hr, fcount, e3,
        getCount_setCounter, counter_setCounter, getCount_fresh,
        if_neg (fun h => hr h.symm), if_pos rfl]
      simp
    · have hidx : ROI_LIMIT * ((g - 1) / ROI_LIMIT) + ROI_LIMIT ≠ 0 := by
        simp only [ROI_LIMIT]; omega
      have hq99 : (ROI_LIMIT * ((g - 1) / ROI_LIMIT) + ROI_LIMIT - 1) / ROI_LIMIT
          = (g - 1) / ROI_LIMIT := by
        simp only [ROI_LIMIT]; omega
      have hr99 : (ROI_LIMIT * ((g - 1) / ROI_LIMIT) + ROI_LIMIT - 1) % ROI_LIMIT
          = ROI_LIMIT - 1 := by
        simp only [ROI_LIMIT]; omega
      simp only [SyncytiaRoi.nuclei_count, hidx, if_false, hq99, hr99]
      rw [if_neg (by rw [flen, e1]; exact lt_irrefl _), if_pos trivial, fcount, e3,
        getCount_setCounter, counter_setCounter, getCount_fresh, if_pos rfl,
        if_neg (fun h => hr h)]
      simp

/-- C3 witness: one point under group 1 yields corrected count 1. -/
theorem c3_count_correction_witness :
    ([((5 : Int), (5 : Int))].foldl SyncytiaRoi.add_point
      (initStore.set_syncytium 1)).nuclei_count 1 = 1 :=
  ((c3_count_correction (initStore.set_syncytium 1) 1 (by decide) (by decide)
    [((5 : Int), (5 : Int))]).2.2 (by decide)).1

/-- C6: immediately after a save (`update_saved`) the store is saved; one
`add_point` (through a valid active reference) makes it unsaved; a further
save restores it; and is_saved is exactly the ordered, pairwise structural
comparison of `roi + [single_cells]` against the snapshot list. -/
theorem c6_dirty_tracking (s : SyncytiaRoi) (p : Point) (hv : s.activeValid) :
    s.update_saved.is_saved = true ∧
    (s.update_saved.add_point p).is_saved = false ∧
    (s.update_saved.add_point p).update_saved.is_saved = true ∧
    ∀ t : SyncytiaRoi, (t.is_saved = true ↔
      (t.roi ++ [t.single_cells]).map PointRoi.points
        = t.savedList.map PointRoi.points) := by
  refine ⟨is_saved_update_saved s, ?_, is_saved_update_saved _, is_saved_iff⟩
  cases hsv : (s.update_saved.add_point p).is_saved with
  | false => rfl
  | true =>
    exfalso
    have hm := (is_saved_iff _).mp hsv
    have hsl : (s.update_saved.add_point p).savedList = s.roi ++ [s.single_cells] := by
      unfold SyncytiaRoi.savedList
      rw [add_point_saved]
      rfl
    rw [hsl] at hm
    unfold SyncytiaRoi.activeValid at hv
    cases ha : s.active with
    | single =>
      obtain ⟨er, es⟩ := add_point_single s.update_saved p ha
      rw [er, es] at hm
      have hm2 := List.append_cancel_left
        ((List.map_append PointRoi.points s.roi [s.single_cells.addPoint p]).symm.trans
          (hm.trans (List.map_append PointRoi.points s.roi [s.single_cells])))
      have := congrArg List.length (List.head_eq_of_cons_eq hm2)
      simp [PointRoi.addPoint] at this
    | seg i =>
      rw [ha] at hv
      obtain ⟨_, er, es⟩ := add_point_seg s.update_saved p i ha
      rw [er, es] at hm
      have hm2 := List.append_cancel_right
        ((List.map_append PointRoi.points _ [s.single_cells]).symm.trans
          (hm.trans (List.map_append PointRoi.points s.roi [s.single_cells])))
      exact map_points_ne_set_addPoint s.roi i hv p hm2

/-- C6 witness: one point after a save flips is_saved to false. -/
theorem c6_dirty_tracking_witness :
    (initStore.update_saved.add_point ((1 : Int), (1 : Int))).is_saved = false :=
  (c6_dirty_tracking initStore ((1 : Int), (1 : Int)) trivial).2.1

/-
clear_syncytium (claim C10).
-/

theorem rebuildExcluding_points (src : PointRoi) (r : Nat) :
    (rebuildExcluding src r).points = src.points.filter (fun pc => pc.2 != r) := by
  have h : ∀ (l : List (Point × Nat)) (acc : PointRoi),
      (l.foldl (fun acc pc => if pc.2 ≠ r then (acc.setCounter pc.2).addPoint pc.1 else acc)
        acc).points = acc.points ++ l.filter (fun pc => pc.2 != r) := by
    intro l
    induction l with
    | nil => intro acc; simp
    | cons pc t ih =>
      intro acc
      by_cases hc : pc.2 = r
      · rw [List.foldl_cons, if_neg (not_not_intro hc), ih]
        simp [hc]
      · rw [List.foldl_cons, if_pos hc, ih]
        simp [hc, PointRoi.addPoint, PointRoi.setCounter]
  exact (h src.points PointRoi.new).trans (by simp [PointRoi.new])

theorem nuclei_nonzero_seg (s : SyncytiaRoi) (g : Nat) (hg : g ≠ 0)
    (hnz : s.nuclei_count g ≠ 0) : (g - 1) / ROI_LIMIT < s.roi.length := by
  by_contra hc
  apply hnz
  simp only [SyncytiaRoi.nuclei_count, hg, if_false]
  rw [if_pos (by omega)]

/-- C10: for g ≥ 1 with a nonzero count, clear_group(g) rebuilds the segment
at g's segment index by filtering the points of the currently ACTIVE
container (excluding g's local tag); this agrees with the spec's clear_tag
contract on g's own segment exactly under the hypothesis that the active
reference is that segment (and the tag is not the sentinel tag), and a
concrete misaligned store shows the results genuinely differ otherwise. -/
theorem c10_clear_uses_active (s : SyncytiaRoi) (g : Nat) (hg : 1 ≤ g)
    (hnz : s.nuclei_count g ≠ 0) :
    ((s.clear_syncytium g).roi.getD ((g - 1) / ROI_LIMIT) PointRoi.new).points
        = s.activeRoi.points.filter (fun pc => pc.2 != (g - 1) % ROI_LIMIT) ∧
    (s.active = ActiveRef.seg ((g - 1) / ROI_LIMIT) →
      (g - 1) % ROI_LIMIT ≠ ROI_LIMIT - 1 →
      ((s.clear_syncytium g).roi.getD ((g - 1) / ROI_LIMIT) PointRoi.new).points
        = clear_tag_spec (s.roi.getD ((g - 1) / ROI_LIMIT) PointRoi.new)
            ((g - 1) % ROI_LIMIT)) ∧
    (misalignedStore.active ≠ ActiveRef.seg 0 ∧
      ((misalignedStore.clear_syncytium 1).roi.getD 0 PointRoi.new).points
        ≠ clear_tag_spec (misalignedStore.roi.getD 0 PointRoi.new) 0) := by
  have hg0 : g ≠ 0 := by omega
  have hql := nuclei_nonzero_seg s g hg0 hnz
  have hmain : ((s.clear_syncytium g).roi.getD ((g - 1) / ROI_LIMIT) PointRoi.new).points
      = s.activeRoi.points.filter (fun pc => pc.2 != (g - 1) % ROI_LIMIT) := by
    unfold SyncytiaRoi.clear_syncytium
    rw [if_neg hnz, if_neg hg0]
    rw [getD_set_self _ _ _ _ hql]
    exact rebuildExcluding_points _ _
  refine ⟨hmain, ?_, by decide⟩
  intro hact hr99
  rw [hmain]
  unfold SyncytiaRoi.activeRoi
  rw [hact]
  unfold clear_tag_spec
  rw [if_neg hr99]

/-- C10 witness: with the active segment owning group 1, clearing group 1
filters exactly that segment's points. -/
theorem c10_clear_uses_active_witness :
    ((alignedStore.clear_syncytium 1).roi.getD 0 PointRoi.new).points
      = alignedStore.activeRoi.points.filter (fun pc => pc.2 != 0) :=
  (c10_clear_uses_active alignedStore 1 (by decide) (by decide)).1

/-
SummaryReducer (claim C8): the fusion index the code computes from the final
histogram equals the sum of (size - 1) over all multi-member groups.
-/

theorem sumW_nil : sumW [] = 0 := rfl

theorem sumW_cons (kv : Nat × Nat) (t : List (Nat × Nat)) :
    sumW (kv :: t) = (kv.1 - 1) * kv.2 + sumW t := rfl

theorem sumW_dictSet_add (d : List (Nat × Nat)) (k n : Nat) :
    sumW (dictSet d k (dictGet d k + n)) = sumW d + (k - 1) * n := by
  induction d with
  | nil => simp [dictSet, dictGet, sumW]
  | cons ab rest ih =>
    obtain ⟨a, b⟩ := ab
    by_cases h : a = k
    · subst h
      simp only [dictGet, dictSet, eq_self_iff_true, if_true, sumW_cons]
      rw [Nat.mul_add]
      omega
    · simp only [dictGet, dictSet, if_neg h, sumW_cons, ih]
      omega

theorem sumW_dictIncr (d : List (Nat × Nat)) (k : Nat) :
    sumW (dictIncr d k) = sumW d + (k - 1) := by
  have h := sumW_dictSet_add d k 1
  simpa [dictIncr] using h

theorem sumW_foldl_incr (l : List (Nat × Nat)) (h0 : List (Nat × Nat)) :
    sumW (l.foldl (fun h kv => dictIncr h kv.2) h0)
      = sumW h0 + (l.map (fun kv => kv.2 - 1)).sum := by
  induction l generalizing h0 with
  | nil => simp
  | cons kv t ih =>
    rw [List.foldl_cons, ih, sumW_dictIncr, List.map_cons, List.sum_cons]
    omega

theorem sumW_processFile (hist : List (Nat × Nat)) (f : MarkerFile) :
    sumW (processFile hist f)
      = sumW hist + (if f.format = markersTag
          then ((fileGroupSizes f).map (fun v => v - 1)).sum else 0) := by
  by_cases h : f.format = markersTag
  · rw [if_pos h]
    unfold processFile
    rw [if_neg (not_not_intro h)]
    rw [sumW_foldl_incr, sumW_dictSet_add]
    unfold fileGroupSizes dictPop0
    rw [List.map_map]
    simp only [Nat.sub_self, Nat.zero_mul, Nat.add_zero]
    rfl
  · rw [if_neg h]
    unfold processFile
    rw [if_pos h]
    omega

theorem sumW_summaryHist (files : List MarkerFile) :
    sumW (summaryHist files)
      = (files.map (fun f => if f.format = markersTag
          then ((fileGroupSizes f).map (fun v => v - 1)).sum else 0)).sum := by
  have h : ∀ (fs : List MarkerFile) (h0 : List (Nat × Nat)),
      sumW (fs.foldl processFile h0) = sumW h0 + (fs.map (fun f =>
        if f.format = markersTag
          then ((fileGroupSizes f).map (fun v => v - 1)).sum else 0)).sum := by
    intro fs
    induction fs with
    | nil => intro h0; simp
    | cons f t ih =>
      intro h0
      rw [List.foldl_cons, ih, sumW_processFile, List.map_cons, List.sum_cons]
      omega
  rw [summaryHist, h files [(1, 0)]]
  simp [sumW]

theorem dictGet_not_mem (d : List (Nat × Nat)) (k : Nat) (h : k ∉ keysOf d) :
    dictGet d k = 0 := by
  induction d with
  | nil => rfl
  | cons ab rest ih =>
    obtain ⟨a, b⟩ := ab
    have hne : a ≠ k := by
      intro he
      exact h (by simp [keysOf, he])
    simp only [dictGet, if_neg hne]
    exact ih (fun hm => h (by simp [keysOf] at hm ⊢; exact Or.inr hm))

theorem keysOf_dictSet (d : List (Nat × Nat)) (k v : Nat) :
    keysOf (dictSet d k v)
      = if k ∈ keysOf d then keysOf d else keysOf d ++ [k] := by
  induction d with
  | nil => simp [dictSet, keysOf]
  | cons ab rest ih =>
    obtain ⟨a, b⟩ := ab
    by_cases h : a = k
    · subst h
      have hm : a ∈ keysOf ((a, b) :: rest) := by simp [keysOf]
      rw [if_pos hm]
      simp [dictSet, keysOf]
    · have hset : dictSet ((a, b) :: rest) k v = (a, b) :: dictSet rest k v := by
        simp [dictSet, h]
      have hcons1 : keysOf ((a, b) :: dictSet rest k v)
          = a :: keysOf (dictSet rest k v) := rfl
      have hcons2 : keysOf ((a, b) :: rest) = a :: keysOf rest := rfl
      rw [hset, hcons1, ih, hcons2]
      by_cases hm : k ∈ keysOf rest
      · rw [if_pos hm, if_pos (by simp [hm])]
      · have hn : k ∉ a :: keysOf rest := by
          intro hc
          rcases List.mem_cons.mp hc with he | hm2
          · exact h he.symm
          · exact hm hm2
        rw [if_neg hm, if_neg hn]
        rfl

theorem nodup_dictSet (d : List (Nat × Nat)) (k v : Nat)
    (h : (keysOf d).Nodup) : (keysOf (dictSet d k v)).Nodup := by
  rw [keysOf_dictSet]
  by_cases hm : k ∈ keysOf d
  · rw [if_pos hm]; exact h
  · rw [if_neg hm]
    rw [List.nodup_append]
    refine ⟨h, List.nodup_singleton k, ?_⟩
    intro a ha hb
    rw [List.mem_singleton] at hb
    subst hb
    exact hm ha

theorem nodup_foldl_incr (l : List (Nat × Nat)) :
    ∀ h0 : List (Nat × Nat), (keysOf h0).Nodup →
      (keysOf (l.foldl (fun h kv => dictIncr h kv.2) h0)).Nodup := by
  induction l with
  | nil => exact fun h0 h => h
  | cons kv t ih => exact fun h0 h => ih _ (nodup_dictSet _ _ _ h)

theorem nodup_summaryHist (files : List MarkerFile) :
    (keysOf (summaryHist files)).Nodup := by
  have h : ∀ (fs : List MarkerFile) (h0 : List (Nat × Nat)), (keysOf h0).Nodup →
      (keysOf (fs.foldl processFile h0)).Nodup := by
    intro fs
    induction fs with
    | nil => exact fun h0 h => h
    | cons f t ih =>
      intro h0 h
      apply ih
      unfold processFile
      by_cases hf : f.format = markersTag
      · rw [if_neg (not_not_intro hf)]
        exact nodup_foldl_incr _ _ (nodup_dictSet _ _ _ h)
      · rw [if_pos hf]
        exact h
  exact h files [(1, 0)] (by simp [keysOf])

theorem foldl_max_le_of_mem (d : List (Nat × Nat)) :
    ∀ (a : Nat), (∀ kv ∈ d, kv.1 ≤ d.foldl (fun m kv => max m kv.1) a)
      ∧ a ≤ d.foldl (fun m kv => max m kv.1) a := by
  induction d with
  | nil => exact fun a => ⟨by simp, le_refl a⟩
  | cons kv t ih =>
    intro a
    refine ⟨?_, ?_⟩
    · intro x hx
      rcases List.mem_cons.mp hx with he | hm
      · subst he
        exact le_trans (le_max_right a x.1) (ih (max a x.1)).2
      · exact (ih (max a kv.1)).1 x hm
    · exact le_trans (le_max_left a kv.1) (ih (max a kv.1)).2

theorem le_maxSize (d : List (Nat × Nat)) : ∀ kv ∈ d, kv.1 ≤ maxSize d :=
  (foldl_max_le_of_mem d 0).1

theorem sum_map_add_distrib (l : List Nat) (f g : Nat → Nat) :
    (l.map (fun x => f x + g x)).sum = (l.map f).sum + (l.map g).sum := by
  induction l with
  | nil => rfl
  | cons a t ih =>
    simp only [List.map_cons, List.sum_cons, ih]
    omega

theorem sum_range_single (m j c : Nat) (h : j < m) :
    ((List.range m).map (fun i => if i = j then c else 0)).sum = c := by
  induction m with
  | zero => omega
  | succ n ih =>
    rw [List.range_succ, List.map_append, List.sum_append]
    by_cases hj : j = n
    · have hz : ((List.range n).map (fun i => if i = j then c else 0)).sum = 0 := by
        apply List.sum_eq_zero
        intro x hx
        obtain ⟨i, hi, rfl⟩ := List.mem_map.mp hx
        rw [if_neg (by have := List.mem_range.mp hi; omega)]
      rw [hz]
      simp only [List.map_cons, List.map_nil, List.sum_cons, List.sum_nil]
      rw [if_pos hj.symm]
      omega
    · have hj2 : j < n := by omega
      rw [ih hj2]
      simp only [List.map_cons, List.map_nil, List.sum_cons, List.sum_nil]
      rw [if_neg (fun he => hj he.symm)]
      omega

theorem range_sum_eq_sumW (d : List (Nat × Nat)) (m : Nat)
    (hnd : (keysOf d).Nodup) (hle : ∀ kv ∈ d, kv.1 ≤ m) :
    ((List.range m).map (fun i => i * dictGet d (i + 1))).sum = sumW d := by
  induction d with
  | nil =>
    simp only [dictGet, Nat.mul_zero, sumW_nil]
    apply List.sum_eq_zero
    intro x hx
    obtain ⟨i, _, rfl⟩ := List.mem_map.mp hx
    rfl
  | cons ab rest ih =>
    obtain ⟨a, b⟩ := ab
    have hpair : a ∉ keysOf rest ∧ (keysOf rest).Nodup := by
      have hh : (a :: keysOf rest).Nodup := hnd
      exact List.nodup_cons.mp hh
    have hna := hpair.1
    have hnr := hpair.2
    have hrest := ih hnr (fun kv hkv => hle kv (List.mem_cons_of_mem _ hkv))
    have ha : a ≤ m := hle (a, b) (List.mem_cons_self _ _)
    rcases Nat.eq_zero_or_pos a with h0 | hpos
    · subst h0
      have hcg : ∀ i ∈ List.range m, i * dictGet ((0, b) :: rest) (i + 1)
          = i * dictGet rest (i + 1) := by
        intro i _
        simp [dictGet]
      rw [List.map_congr_left hcg, hrest, sumW_cons]
      simp
    · obtain ⟨a0, rfl⟩ : ∃ a0, a = a0 + 1 := ⟨a - 1, by omega⟩
      have hz : dictGet rest (a0 + 1) = 0 := dictGet_not_mem _ _ hna
      have hcg : ∀ i ∈ List.range m, i * dictGet ((a0 + 1, b) :: rest) (i + 1)
          = i * dictGet rest (i + 1) + (if i = a0 then a0 * b else 0) := by
        intro i _
        by_cases hi : i = a0
        · subst hi
          simp [dictGet, hz]
        · have hne : a0 + 1 ≠ i + 1 := by omega
          simp [dictGet, hne, hi]
      rw [List.map_congr_left hcg, sum_map_add_distrib, hrest,
        sum_range_single m a0 (a0 * b) (by omega), sumW_cons]
      simp only [Nat.add_sub_cancel]
      omega

theorem zip_self_map {α β : Type} (l : List α) (f : α → β) :
    l.zip (l.map f) = l.map (fun a => (a, f a)) := by
  induction l with
  | nil => rfl
  | cons a t ih => simp [ih]

theorem fusion_enum_range (files : List MarkerFile) :
    fusionIndexTotal files
      = ((List.range (maxSize (summaryHist files))).map
          (fun i => i * dictGet (summaryHist files) (i + 1))).sum := by
  unfold fusionIndexTotal countsList
  rw [List.enum_eq_zip_range, List.length_map, List.length_range, zip_self_map,
    List.map_map]
  rfl

theorem foldl_add_sum {α : Type} (l : List α) (h : α → Nat) (n : Nat) :
    l.foldl (fun acc x => acc + h x) n = n + (l.map h).sum := by
  induction l generalizing n with
  | nil => simp
  | cons a t ih =>
    rw [List.foldl_cons, ih, List.map_cons, List.sum_cons]
    omega

theorem sum_map_filter_ite {α : Type} (l : List α) (p : α → Bool) (h : α → Nat) :
    ((l.filter p).map h).sum = (l.map (fun x => if p x then h x else 0)).sum := by
  induction l with
  | nil => rfl
  | cons a t ih =>
    by_cases hp : p a <;> simp [List.filter_cons, hp, ih]

theorem sum_sub_one_filter (l : List Nat) :
    ((l.filter (fun v => 2 ≤ v)).map (fun v => v - 1)).sum
      = (l.map (fun v => v - 1)).sum := by
  induction l with
  | nil => rfl
  | cons a t ih =>
    by_cases h : 2 ≤ a
    · simp [List.filter_cons, h, ih]
    · have hz : a - 1 = 0 := by omega
      simp [List.filter_cons, h, ih, hz]

/-- C8: the fusion index the summary computes (the `i * counts[i]` row) equals
the sum of (group_size − 1) over all multi-member groups of all files passing
format validation; and on the two concrete files — 3 single cells plus one
syncytium of size 4, and one syncytium of size 4 — the displayed histogram is
[3, 0, 0, 2] (bucket 1 = 3, bucket 4 = 2) and the fusion index is 6. -/
theorem c8_fusion_index (files : List MarkerFile) :
    fusionIndexTotal files = specFusionIndex files ∧
    countsList [sumFileA, sumFileB] = [3, 0, 0, 2] ∧
    fusionIndexTotal [sumFileA, sumFileB] = 6 := by
  refine ⟨?_, by decide, by decide⟩
  rw [fusion_enum_range,
    range_sum_eq_sumW _ _ (nodup_summaryHist files) (le_maxSize _),
    sumW_summaryHist]
  unfold specFusionIndex
  rw [foldl_add_sum, Nat.zero_add, sum_map_filter_ite]
  apply congrArg
  apply List.map_congr_left
  intro f _
  by_cases h : f.format = markersTag
  · rw [if_pos h, if_pos (by simp [h]), sum_sub_one_filter]
  · rw [if_neg h, if_neg (by simp [h])]
